import Mathlib

/-!
Verification development for the hamster-inspection moderation bot
(`bot.py`).  The Python source is shallowly embedded: pure string
processing becomes Lean functions on `String`/`List Char`, the network
and chat-platform effects become explicit outcome parameters, and the
per-message orchestration loop becomes a recursive function producing a
record of observable effects (vision calls, delete attempts, ...).
-/

/-! ## Python values reachable by `_extract_strings`

`_extract_strings` walks arbitrary nested metadata: `None`, strings,
dicts (by values), lists/tuples/sets (by elements), and anything else
via `str(value)`.  `Meta.other s` stands for a non-string leaf whose
`str()` rendering is `s`. -/

inductive Meta where
  | null : Meta
  | str : String → Meta
  | seq : List Meta → Meta
  | map : List (String × Meta) → Meta
  | other : String → Meta

mutual

/-- `_extract_strings(value)`: recursively flatten nested metadata into strings. -/
def extractStrings : Meta → List String
  | .null => []
  | .str s => [s]
  | .map kvs => extractStringsKV kvs
  | .seq xs => extractStringsList xs
  | .other s => [s]

/-- `_extract_strings` over the elements of a list/tuple/set. -/
def extractStringsList : List Meta → List String
  | [] => []
  | v :: rest => extractStrings v ++ extractStringsList rest

/-- `_extract_strings` over the values of a dict (keys are ignored). -/
def extractStringsKV : List (String × Meta) → List String
  | [] => []
  | (_, v) :: rest => extractStrings v ++ extractStringsKV rest

end

/-! ## String primitives mirroring the Python string operations -/

/-- Python `s.lower()` (ASCII letters; the keywords and claims are ASCII). -/
def pyLower (s : String) : String := ⟨s.data.map Char.toLower⟩

/-- Python `s.upper()` (ASCII letters). -/
def pyUpper (s : String) : String := ⟨s.data.map Char.toUpper⟩

/-- Python `s.strip()`: drop leading and trailing whitespace. -/
def pyStrip (s : String) : String :=
  ⟨(((s.data.dropWhile Char.isWhitespace).reverse.dropWhile Char.isWhitespace).reverse)⟩

/-- Python `sep.join(xs)`. -/
def pyJoin (sep : String) : List String → String
  | [] => ""
  | [s] => s
  | s :: rest => s ++ sep ++ pyJoin sep rest

/-- Python `sub in s`: substring containment. -/
def pyContains (s sub : String) : Bool :=
  s.data.tails.any (fun t => sub.data.isPrefixOf t)

/-- Python `s.startswith(p)`. -/
def pyStartsWith (s p : String) : Bool := p.data.isPrefixOf s.data

/-- Python `s.endswith(p)`. -/
def pyEndsWith (s p : String) : Bool := p.data.isSuffixOf s.data

/-- Python `url.split("?", 1)[0]`: the part of the string before the first `?`. -/
def stripQuery (s : String) : String := ⟨s.data.takeWhile (fun c => c ≠ '?')⟩

/-- `re.sub(bad+, " ", s)` on the character list: every maximal run of
characters satisfying `bad` is replaced by a single space.  The flag
records whether the previous character was part of such a run. -/
def subRunsAux (bad : Char → Bool) : List Char → Bool → List Char
  | [], _ => []
  | c :: rest, inRun =>
    if bad c then
      if inRun then subRunsAux bad rest true
      else ' ' :: subRunsAux bad rest true
    else c :: subRunsAux bad rest false

/-- `re.sub` of runs of `bad` characters by a single space. -/
def subRuns (bad : Char → Bool) (l : List Char) : List Char := subRunsAux bad l false

/-- Helper for `pySplitWs`: accumulate the current word (reversed). -/
def pySplitWsAux : List Char → List Char → List String
  | [], acc => if acc.isEmpty then [] else [⟨acc.reverse⟩]
  | c :: rest, acc =>
    if c.isWhitespace then
      if acc.isEmpty then pySplitWsAux rest []
      else (⟨acc.reverse⟩ : String) :: pySplitWsAux rest []
    else pySplitWsAux rest (c :: acc)

/-- Python `s.split()` (no argument): split on whitespace runs, dropping
empty pieces. -/
def pySplitWs (s : String) : List String := pySplitWsAux s.data []

/-! ## Fixed configuration sets from the top of `bot.py` -/

/-- `HAMSTER_KEYWORDS` from the source. -/
def HAMSTER_KEYWORDS : List String := ["hamster", "hammy", "hamtaro"]

/-- `IMAGE_URL_EXTENSIONS` from the source. -/
def IMAGE_URL_EXTENSIONS : List String := [".jpg", ".jpeg", ".png", ".webp", ".gif", ".bmp"]

/-- `VIDEO_URL_EXTENSIONS` from the source. -/
def VIDEO_URL_EXTENSIONS : List String := [".mp4", ".mov", ".webm", ".mkv", ".avi", ".m3u8"]

/-! ## `metadata_indicates_hamster` -/

/-- `" ".join(_extract_strings(parts)).lower()` for the tuple of arguments. -/
def searchableText (parts : List Meta) : String :=
  pyLower (pyJoin " " (extractStringsList parts))

/-- `[a-z0-9]` test used (negated) by the normalisation regex. -/
def isLowerAlnum (c : Char) : Bool := c.isLower || c.isDigit

/-- `re.sub(r"[^a-z0-9]+", " ", searchable_text)`. -/
def normalizedText (parts : List Meta) : String :=
  ⟨subRuns (fun c => !(isLowerAlnum c)) (searchableText parts).data⟩

/-- `normalized.split()`: the token list of the normalised metadata text. -/
def metadataTokens (parts : List Meta) : List String :=
  pySplitWs (normalizedText parts)

/-- `metadata_indicates_hamster(*parts)`: free hamster detection from
Discord metadata (filenames, embed text, URLs). -/
def metadata_indicates_hamster (parts : List Meta) : Bool :=
  let searchable_text := searchableText parts
  let tokens := metadataTokens parts
  if HAMSTER_KEYWORDS.any (fun keyword => pyContains searchable_text keyword) then true
  else tokens.contains "hampter"

/-! ## `is_image_candidate` -/

/-- Python `(x or "")` on an optional string. -/
def pyOrEmpty : Option String → String
  | none => ""
  | some s => s

/-- `is_image_candidate(media_url, content_type, is_video_embed)`:
true when media is image-compatible for `image_url` vision input. -/
def is_image_candidate (media_url : Option String) (content_type : Option String)
    (is_video_embed : Bool) : Bool :=
  if is_video_embed then false
  else
    let lowered_url := pyLower (pyOrEmpty media_url)
    let lowered_content_type := pyLower (pyOrEmpty content_type)
    if !(pyStartsWith lowered_url "http://" || pyStartsWith lowered_url "https://") then false
    else if pyStartsWith lowered_content_type "image/" then true
    else if pyStartsWith lowered_content_type "video/" then false
    else
      let url_without_query := stripQuery lowered_url
      if VIDEO_URL_EXTENSIONS.any (fun e => pyEndsWith url_without_query e) then false
      else IMAGE_URL_EXTENSIONS.any (fun e => pyEndsWith url_without_query e)

/-! ## The read surface of a Discord message -/

/-- Message author as read by the pipeline. -/
structure Author where
  name : String
  mention : String
  bot : Bool

/-- A message attachment (`attachment.url` and friends).  In discord.py
`url`, `filename` and `proxy_url` are strings while `content_type` and
`description` are optional. -/
structure Attachment where
  url : String
  content_type : Option String
  filename : String
  description : Option String
  proxy_url : String

/-- A message embed.  For the `image`/`thumbnail`/`video` proxy fields the
outer `Option` is the Python truthiness of the proxy object (`if
embed.image:`) and the inner `Option String` is its `url` attribute, which
can itself be absent.  `raw` stands for `embed.to_dict()`. -/
structure Embed where
  type : String
  image : Option (Option String)
  thumbnail : Option (Option String)
  video : Option (Option String)
  url : Option String
  title : Option String
  description : Option String
  provider_name : Option String
  author_name : Option String
  footer_text : Option String
  raw : Meta

/-- The read-only view of an incoming message used by the pipeline. -/
structure Message where
  content : String
  attachments : List Attachment
  embeds : List Embed
  author : Author
  is_self : Bool

/-- One media candidate as built by `collect_media_candidates`. -/
structure Candidate where
  url : String
  content_type : Option String
  is_video_embed : Bool
  metadata : List Meta

/-- Lift an optional metadata string into a `Meta` leaf (`None` ↦ `null`). -/
def optMeta : Option String → Meta
  | none => .null
  | some s => .str s

/-! ## `collect_media_candidates` -/

/-- The candidate built for one attachment (url, content type, and the
metadata list `[message.content, filename, description, proxy_url,
content_type]`). -/
def attachmentCandidate (content : String) (a : Attachment) : Candidate :=
  { url := a.url
    content_type := a.content_type
    is_video_embed := false
    metadata := [.str content, .str a.filename, optMeta a.description,
                 .str a.proxy_url, optMeta a.content_type] }

/-- The attachment loop of `collect_media_candidates`: walk attachments in
order, skipping empty urls and urls already seen, and thread the
`seen_urls` set (represented as the list of urls added so far). -/
def collectAttachments (content : String) : List Attachment → List String →
    List Candidate × List String
  | [], seen => ([], seen)
  | a :: rest, seen =>
    if a.url = "" ∨ a.url ∈ seen then collectAttachments content rest seen
    else
      let r := collectAttachments content rest (a.url :: seen)
      (attachmentCandidate content a :: r.1, r.2)

/-- The embed kinds eligible for candidate extraction. -/
def eligibleEmbedTypes : List String := ["gifv", "image", "video", "rich"]

/-- The `if embed.image: ... elif embed.thumbnail: ... elif embed.video:
... elif embed.url: ...` chain choosing `(media_url, is_video_embed)` for
one embed.  `embed.url` is truthy only when present and nonempty. -/
def embedChoice (e : Embed) : Option String × Bool :=
  match e.image with
  | some u => (u, false)
  | none =>
    match e.thumbnail with
    | some u => (u, false)
    | none =>
      match e.video with
      | some u => (u, true)
      | none =>
        match e.url with
        | some u => if u = "" then (none, false) else (some u, decide (e.type = "video"))
        | none => (none, false)

/-- The candidate built for one embed: no declared content type, and the
metadata list `[message.content, title, description, embed.url, embed.type,
provider name, author name, footer text, embed.to_dict()]`. -/
def embedCandidate (content : String) (e : Embed) (media_url : String)
    (is_video_embed : Bool) : Candidate :=
  { url := media_url
    content_type := none
    is_video_embed := is_video_embed
    metadata := [.str content, optMeta e.title, optMeta e.description,
                 optMeta e.url, .str e.type, optMeta e.provider_name,
                 optMeta e.author_name, optMeta e.footer_text, e.raw] }

/-- The embed loop of `collect_media_candidates`: skip ineligible kinds,
pick the media url and video flag, skip falsy (`None`/empty) urls and urls
already seen. -/
def collectEmbeds (content : String) : List Embed → List String → List Candidate
  | [], _ => []
  | e :: rest, seen =>
    if ¬ (e.type ∈ eligibleEmbedTypes) then collectEmbeds content rest seen
    else
      match embedChoice e with
      | (none, _) => collectEmbeds content rest seen
      | (some u, is_video_embed) =>
        if u = "" then collectEmbeds content rest seen
        else if u ∈ seen then collectEmbeds content rest seen
        else embedCandidate content e u is_video_embed ::
             collectEmbeds content rest (u :: seen)

/-- `collect_media_candidates(message)`: all media URLs and cheap metadata
from a message, attachments first then embeds, deduplicated through one
shared `seen_urls` set. -/
def collect_media_candidates (msg : Message) : List Candidate :=
  let r := collectAttachments msg.content msg.attachments []
  r.1 ++ collectEmbeds msg.content msg.embeds r.2

/-! ## `analyze_image_for_hamster`

The network interaction is made explicit: `VisionOutcome` is what the
transport delivers for the single POST request, and the function maps it
to either a returned classification (`Except.ok`) or an uncaught Python
exception propagating to the caller (`Except.error`).  The source passes
no `timeout=` argument to `session.post`, so no request timeout is
configured; a transport-level timeout surfaces as an uncaught
`TimeoutError`. -/

/-- Shape of the JSON body of a 200 response.  `missingShape` is a body
whose `data["choices"][0]["message"]["content"]` lookup fails with
`KeyError`/`IndexError` (the two exception types the source catches). -/
inductive VisionBody where
  | invalidJson : VisionBody
  | missingShape : VisionBody
  | content : String → VisionBody
  deriving DecidableEq

/-- What the transport delivers for the vision POST request. -/
inductive VisionOutcome where
  | networkError : VisionOutcome
  | timeoutFired : VisionOutcome
  | response : Nat → VisionBody → VisionOutcome
  deriving DecidableEq

/-- Python exceptions that can escape `analyze_image_for_hamster`. -/
inductive VisionError where
  | clientError : VisionError
  | timeoutError : VisionError
  | jsonDecodeError : VisionError
  deriving DecidableEq

/-- The `timeout=` argument passed to `session.post` in
`analyze_image_for_hamster`: none is passed. -/
def visionRequestTimeout : Option Nat := none

/-- `re.sub(r"[^A-Z]", " ", answer).split()` applied to the stripped,
upper-cased answer text: each non-letter character becomes a space. -/
def visionTokens (content : String) : List String :=
  let answer := pyUpper (pyStrip content)
  pySplitWs ⟨answer.data.map (fun c => if c.isUpper then c else ' ')⟩

/-- The success-path parse of the model answer:
`bool(first_token) and first_token[0] == "YES"`. -/
def parse_vision_answer (content : String) : Bool :=
  match visionTokens content with
  | [] => false
  | t :: _ => decide (t = "YES")

/-- `analyze_image_for_hamster(image_url)` as a function of the API-key
configuration and the transport outcome.  `Except.error` marks an
exception that propagates to the caller (nothing in the source catches
`aiohttp` client errors, timeouts, or JSON-decode failures). -/
def analyze_image_for_hamster (apiKey : Option String) (outcome : VisionOutcome) :
    Except VisionError Bool :=
  match apiKey with
  | none => .ok false
  | some _ =>
    match outcome with
    | .networkError => .error .clientError
    | .timeoutFired => .error .timeoutError
    | .response status body =>
      if status ≠ 200 then .ok false
      else
        match body with
        | .invalidJson => .error .jsonDecodeError
        | .missingShape => .ok false
        | .content s => .ok (parse_vision_answer s)

/-! ## `delete_hamster_message` and `notify_hamster_deleted` -/

/-- Outcome of the `message.delete()` call, matching the source's
`except` arms. -/
inductive DeleteOutcome where
  | success : DeleteOutcome
  | forbidden : DeleteOutcome
  | notFound : DeleteOutcome
  | httpError : DeleteOutcome
  deriving DecidableEq

/-- `delete_hamster_message(message)`: `True` only when the delete call
itself succeeds; every `except` arm (including `discord.NotFound`) logs
and falls through to `return False`. -/
def delete_hamster_message : DeleteOutcome → Bool
  | .success => true
  | .forbidden => false
  | .notFound => false
  | .httpError => false

/-- The text sent by `notify_hamster_deleted`. -/
def notifyText (author : Author) : String :=
  "🚨 " ++ author.mention ++ ", hamster detected and deleted! 🚨"

/-! ## `on_message`: the orchestrator loop -/

/-- Observable effects of processing one message: vision-call urls in
order, number of delete attempts, whether the delete succeeded, and
whether the notify step was reached. -/
structure ModerationRun where
  visionCalls : List String
  deleteAttempts : Nat
  deleted : Bool
  notifyAttempted : Bool
  deriving DecidableEq

/-- The moderation action for a positive classification: one delete
attempt; `notify_hamster_deleted` is called iff the delete returned
`True`. -/
def moderationAct (del : DeleteOutcome) (calls : List String) : ModerationRun :=
  let deleted := delete_hamster_message del
  { visionCalls := calls, deleteAttempts := 1, deleted := deleted,
    notifyAttempted := deleted }

/-- The candidate loop of `on_message`.  `oracle` gives the value a
completed vision call returns for a url (the raising paths of the vision
call are analysed separately on `analyze_image_for_hamster`). -/
def runCandidates (oracle : String → Bool) (del : DeleteOutcome) :
    List Candidate → ModerationRun
  | [] => { visionCalls := [], deleteAttempts := 0, deleted := false,
            notifyAttempted := false }
  | c :: rest =>
    if metadata_indicates_hamster c.metadata then moderationAct del []
    else if is_image_candidate (some c.url) c.content_type c.is_video_embed then
      if oracle c.url then moderationAct del [c.url]
      else
        let r := runCandidates oracle del rest
        { r with visionCalls := c.url :: r.visionCalls }
    else runCandidates oracle del rest

/-- `on_message(message)`: ignore the bot's own and other bots' messages,
otherwise run the candidate loop over `collect_media_candidates`. -/
def on_message (oracle : String → Bool) (del : DeleteOutcome) (msg : Message) :
    ModerationRun :=
  if msg.is_self ∨ msg.author.bot then
    { visionCalls := [], deleteAttempts := 0, deleted := false, notifyAttempted := false }
  else runCandidates oracle del (collect_media_candidates msg)


/-! ## Spec-side reference definitions

These follow the spec's wording, to be compared with the embedded source
definitions. -/

/-- Keep the first occurrence of every url, given urls already seen. -/
def dedupFirstAux (seen : List String) : List String → List String
  | [] => []
  | u :: rest =>
    if u ∈ seen then dedupFirstAux seen rest
    else u :: dedupFirstAux (u :: seen) rest

/-- Spec §4.1 step 3: deduplicate by exact url match, first occurrence wins. -/
def dedupFirst (l : List String) : List String := dedupFirstAux [] l

/-- The seen-set after walking a url list, threaded exactly like the loops. -/
def dedupSeenAfter (seen : List String) : List String → List String
  | [] => seen
  | u :: rest =>
    if u ∈ seen then dedupSeenAfter seen rest
    else dedupSeenAfter (u :: seen) rest

/-- The (pre-dedup) urls contributed by the attachments, in message order. -/
def attachmentUrls (atts : List Attachment) : List String :=
  atts.filterMap (fun a => if a.url = "" then none else some a.url)

/-- The url an embed contributes, if any: eligible kind, chosen by the
image/thumbnail/video/url priority chain, and truthy. -/
def embedChosenUrl (e : Embed) : Option String :=
  if e.type ∈ eligibleEmbedTypes then
    match (embedChoice e).1 with
    | none => none
    | some u => if u = "" then none else some u
  else none

/-- All (pre-dedup) media urls of a message: attachments first, then embeds. -/
def messageMediaUrls (msg : Message) : List String :=
  attachmentUrls msg.attachments ++ msg.embeds.filterMap embedChosenUrl

/-- Spec-side first-occurrence filter on attachments themselves: which
attachment each kept url is attributed to. -/
def keepFirstAttachments (seen : List String) : List Attachment → List Attachment
  | [] => []
  | a :: rest =>
    if a.url = "" ∨ a.url ∈ seen then keepFirstAttachments seen rest
    else a :: keepFirstAttachments (a.url :: seen) rest

/-- The video-extension set as the spec's words give it. -/
def specVideoExtensionsClaim : List String :=
  [".mp4", ".mov", ".webm", ".mkv", ".avi", ".mpeg", ".mpg"]

/-- A candidate classifies positive in the loop of `on_message`:
metadata hit, or image-eligible with a positive vision answer. -/
def candidatePositive (oracle : String → Bool) (c : Candidate) : Bool :=
  metadata_indicates_hamster c.metadata ||
    (is_image_candidate (some c.url) c.content_type c.is_video_embed && oracle c.url)

/-- Spec §4.4's special-cased notify wording, read as: the notification
text can differ between two authors distinguished only by name. -/
def notifyDependsOnAuthorName : Prop :=
  ∃ a b : Author, a.mention = b.mention ∧ notifyText a ≠ notifyText b

/-! ## Concrete test fixtures -/

/-- A message whose metadata contains the keyword "hamster". -/
def sampleHamsterMessage : Message :=
  { content := "my hamster"
    attachments := [{ url := "http://x/a.png", content_type := some "image/png",
                      filename := "a.png", description := none,
                      proxy_url := "http://p/a.png" }]
    embeds := []
    author := { name := "Alice", mention := "<@1>", bot := false }
    is_self := false }

/-- A message with one image attachment and no hamster signal in metadata. -/
def catMessage : Message :=
  { content := "just a cat"
    attachments := [{ url := "http://x/cat.png", content_type := some "image/png",
                      filename := "cat.png", description := none,
                      proxy_url := "http://p/cat.png" }]
    embeds := []
    author := { name := "Alice", mention := "<@1>", bot := false }
    is_self := false }

/-- A candidate that classifies positive from metadata alone. -/
def hamsterCandidate : Candidate :=
  { url := "http://x/h.png", content_type := some "image/png", is_video_embed := false,
    metadata := [.str "hamster"] }

/-- A `gifv` embed whose chosen url comes from the thumbnail field. -/
def gifvThumbEmbed : Embed :=
  { type := "gifv", image := none, thumbnail := some (some "http://x/a.gif"), video := none,
    url := none, title := none, description := none, provider_name := none,
    author_name := none, footer_text := none, raw := .map [] }

/-- A `rich` embed whose chosen url comes from the image field. -/
def richImageEmbed : Embed :=
  { type := "rich", image := some (some "http://x/b.png"), thumbnail := none, video := none,
    url := none, title := none, description := none, provider_name := none,
    author_name := none, footer_text := none, raw := .map [] }

/-- A message carrying only `gifvThumbEmbed`. -/
def gifvMessage : Message :=
  { content := ""
    attachments := []
    embeds := [gifvThumbEmbed]
    author := { name := "Alice", mention := "<@1>", bot := false }
    is_self := false }

/-! ## Helper lemmas: the extraction loops compute first-occurrence dedup -/

theorem collectAttachments_spec (content : String) (atts : List Attachment)
    (seen : List String) :
    (collectAttachments content atts seen).1 =
      (keepFirstAttachments seen atts).map (attachmentCandidate content) ∧
    (collectAttachments content atts seen).2 = dedupSeenAfter seen (attachmentUrls atts) := by
  induction atts generalizing seen with
  | nil => exact ⟨rfl, rfl⟩
  | cons a rest ih =>
    by_cases h0 : a.url = ""
    · have hskip : (a.url = "" ∨ a.url ∈ seen) := Or.inl h0
      simp only [collectAttachments, keepFirstAttachments, attachmentUrls, List.filterMap_cons,
        if_pos hskip, if_pos h0]
      exact ih seen
    · by_cases h1 : a.url ∈ seen
      · have hskip : (a.url = "" ∨ a.url ∈ seen) := Or.inr h1
        simp only [collectAttachments, keepFirstAttachments, attachmentUrls,
          List.filterMap_cons, if_pos hskip, if_neg h0, dedupSeenAfter, if_pos h1]
        exact ih seen
      · have hkeep : ¬ (a.url = "" ∨ a.url ∈ seen) := by
          intro h; rcases h with h | h
          · exact h0 h
          · exact h1 h
        simp only [collectAttachments, keepFirstAttachments, attachmentUrls,
          List.filterMap_cons, if_neg hkeep, if_neg h0, dedupSeenAfter, if_neg h1,
          List.map_cons]
        exact ⟨by rw [(ih (a.url :: seen)).1], (ih (a.url :: seen)).2⟩

theorem collectAttachments_urls (content : String) (atts : List Attachment)
    (seen : List String) :
    (collectAttachments content atts seen).1.map Candidate.url =
      dedupFirstAux seen (attachmentUrls atts) := by
  rw [(collectAttachments_spec content atts seen).1]
  induction atts generalizing seen with
  | nil => rfl
  | cons a rest ih =>
    by_cases h0 : a.url = ""
    · simp only [keepFirstAttachments, attachmentUrls, List.filterMap_cons, if_pos h0,
        if_pos (Or.inl h0 : a.url = "" ∨ a.url ∈ seen)]
      exact ih seen
    · by_cases h1 : a.url ∈ seen
      · simp only [keepFirstAttachments, attachmentUrls, List.filterMap_cons, if_neg h0,
          if_pos (Or.inr h1 : a.url = "" ∨ a.url ∈ seen), dedupFirstAux, if_pos h1]
        exact ih seen
      · have hkeep : ¬ (a.url = "" ∨ a.url ∈ seen) := by
          intro h; rcases h with h | h
          · exact h0 h
          · exact h1 h
        simp only [keepFirstAttachments, attachmentUrls, List.filterMap_cons, if_neg h0,
          if_neg hkeep, dedupFirstAux, if_neg h1, List.map_cons, attachmentCandidate]
        exact congrArg _ (ih (a.url :: seen))

theorem collectEmbeds_urls (content : String) (embeds : List Embed)
    (seen : List String) :
    (collectEmbeds content embeds seen).map Candidate.url =
      dedupFirstAux seen (embeds.filterMap embedChosenUrl) := by
  induction embeds generalizing seen with
  | nil => rfl
  | cons e rest ih =>
    by_cases helig : e.type ∈ eligibleEmbedTypes
    · rcases hch : embedChoice e with ⟨mu, ivb⟩
      cases mu with
      | none =>
        simp only [collectEmbeds, if_neg (not_not_intro helig), hch, List.filterMap_cons,
          embedChosenUrl, if_pos helig]
        exact ih seen
      | some u =>
        by_cases hu : u = ""
        · simp only [collectEmbeds, if_neg (not_not_intro helig), hch, List.filterMap_cons,
            embedChosenUrl, if_pos helig, if_pos hu]
          exact ih seen
        · by_cases hseen : u ∈ seen
          · simp only [collectEmbeds, if_neg (not_not_intro helig), hch, List.filterMap_cons,
              embedChosenUrl, if_pos helig, if_neg hu, if_pos hseen, dedupFirstAux]
            exact ih seen
          · simp only [collectEmbeds, if_neg (not_not_intro helig), hch, List.filterMap_cons,
              embedChosenUrl, if_pos helig, if_neg hu, if_neg hseen, dedupFirstAux,
              List.map_cons, embedCandidate]
            exact congrArg _ (ih (u :: seen))
    · simp only [collectEmbeds, if_pos helig, List.filterMap_cons, embedChosenUrl,
        if_neg helig]
      exact ih seen

/-! ## Helper lemmas: dedup algebra and url uniqueness -/

theorem dedupFirstAux_append (seen : List String) (xs ys : List String) :
    dedupFirstAux seen (xs ++ ys) =
      dedupFirstAux seen xs ++ dedupFirstAux (dedupSeenAfter seen xs) ys := by
  induction xs generalizing seen with
  | nil => rfl
  | cons u rest ih =>
    by_cases h : u ∈ seen
    · simp only [List.cons_append, dedupFirstAux, dedupSeenAfter, if_pos h]
      exact ih seen
    · simp only [List.cons_append, dedupFirstAux, dedupSeenAfter, if_neg h, List.cons_append]
      exact congrArg _ (ih (u :: seen))

theorem mem_dedupFirstAux_not_seen {u : String} (seen l : List String) :
    u ∈ dedupFirstAux seen l → u ∉ seen := by
  induction l generalizing seen with
  | nil => intro h; cases h
  | cons v rest ih =>
    intro h
    by_cases hv : v ∈ seen
    · rw [dedupFirstAux, if_pos hv] at h
      exact ih seen h
    · rw [dedupFirstAux, if_neg hv] at h
      rcases List.mem_cons.mp h with h | h
      · exact h ▸ hv
      · intro hs
        exact ih (v :: seen) h (List.mem_cons_of_mem v hs)

theorem dedupFirstAux_nodup (seen l : List String) : (dedupFirstAux seen l).Nodup := by
  induction l generalizing seen with
  | nil => exact List.nodup_nil
  | cons v rest ih =>
    by_cases hv : v ∈ seen
    · rw [dedupFirstAux, if_pos hv]; exact ih seen
    · rw [dedupFirstAux, if_neg hv]
      refine List.nodup_cons.mpr ⟨?_, ih (v :: seen)⟩
      intro hmem
      exact mem_dedupFirstAux_not_seen (v :: seen) rest hmem (List.mem_cons_self v seen)

theorem subset_dedupSeenAfter (seen l : List String) : seen ⊆ dedupSeenAfter seen l := by
  induction l generalizing seen with
  | nil => exact fun _ h => h
  | cons v rest ih =>
    by_cases hv : v ∈ seen
    · rw [dedupSeenAfter, if_pos hv]; exact ih seen
    · rw [dedupSeenAfter, if_neg hv]
      exact fun x hx => ih (v :: seen) (List.mem_cons_of_mem v hx)

theorem dedupFirstAux_subset_after (seen l : List String) :
    ∀ u, u ∈ dedupFirstAux seen l → u ∈ dedupSeenAfter seen l := by
  induction l generalizing seen with
  | nil => intro u h; cases h
  | cons v rest ih =>
    intro u h
    by_cases hv : v ∈ seen
    · rw [dedupFirstAux, if_pos hv] at h
      rw [dedupSeenAfter, if_pos hv]
      exact ih seen u h
    · rw [dedupFirstAux, if_neg hv] at h
      rw [dedupSeenAfter, if_neg hv]
      rcases List.mem_cons.mp h with h | h
      · exact subset_dedupSeenAfter (v :: seen) rest (h ▸ List.mem_cons_self v seen)
      · exact ih (v :: seen) u h

theorem collect_urls_eq (msg : Message) :
    (collect_media_candidates msg).map Candidate.url = dedupFirst (messageMediaUrls msg) := by
  unfold collect_media_candidates dedupFirst messageMediaUrls
  rw [List.map_append, dedupFirstAux_append,
    collectAttachments_urls msg.content msg.attachments [],
    (collectAttachments_spec msg.content msg.attachments []).2,
    collectEmbeds_urls msg.content msg.embeds]

theorem collect_urls_nodup (msg : Message) :
    ((collect_media_candidates msg).map Candidate.url).Nodup := by
  rw [collect_urls_eq]
  unfold dedupFirst messageMediaUrls
  rw [dedupFirstAux_append]
  refine List.nodup_append.mpr ⟨dedupFirstAux_nodup _ _, dedupFirstAux_nodup _ _, ?_⟩
  intro u hu hu'
  exact mem_dedupFirstAux_not_seen _ _ hu'
    (dedupFirstAux_subset_after [] (attachmentUrls msg.attachments) u hu)

/-! ## Helper lemmas: the orchestrator loop -/

theorem runCandidates_attempts_le_one (oracle : String → Bool) (del : DeleteOutcome)
    (cs : List Candidate) : (runCandidates oracle del cs).deleteAttempts ≤ 1 := by
  induction cs with
  | nil => exact Nat.zero_le 1
  | cons c rest ih =>
    rw [runCandidates]
    by_cases hm : metadata_indicates_hamster c.metadata
    · rw [if_pos hm]; exact Nat.le_refl 1
    · rw [if_neg hm]
      by_cases hi : is_image_candidate (some c.url) c.content_type c.is_video_embed
      · rw [if_pos hi]
        by_cases ho : oracle c.url
        · rw [if_pos ho]; exact Nat.le_refl 1
        · rw [if_neg ho]; exact ih
      · rw [if_neg hi]; exact ih

theorem runCandidates_attempts_iff (oracle : String → Bool) (del : DeleteOutcome)
    (cs : List Candidate) :
    (runCandidates oracle del cs).deleteAttempts = 1 ↔
      ∃ c ∈ cs, candidatePositive oracle c = true := by
  induction cs with
  | nil =>
    simp only [runCandidates, List.not_mem_nil]
    constructor
    · intro h; cases h
    · rintro ⟨c, hc, -⟩; cases hc
  | cons c rest ih =>
    rw [runCandidates]
    by_cases hm : metadata_indicates_hamster c.metadata
    · rw [if_pos hm]
      constructor
      · intro _
        exact ⟨c, List.mem_cons_self c rest, by rw [candidatePositive, hm, Bool.true_or]⟩
      · intro _; rfl
    · rw [if_neg hm]
      by_cases hi : is_image_candidate (some c.url) c.content_type c.is_video_embed
      · rw [if_pos hi]
        by_cases ho : oracle c.url
        · rw [if_pos ho]
          constructor
          · intro _
            refine ⟨c, List.mem_cons_self c rest, ?_⟩
            rw [candidatePositive, hi, ho, Bool.and_self, Bool.or_true]
          · intro _; rfl
        · rw [if_neg ho]
          constructor
          · intro h
            rcases ih.mp h with ⟨c', hc', hp⟩
            exact ⟨c', List.mem_cons_of_mem c hc', hp⟩
          · rintro ⟨c', hc', hp⟩
            rcases List.mem_cons.mp hc' with rfl | hc'
            · rw [candidatePositive] at hp
              rw [eq_false_of_ne_true hm] at hp
              rw [eq_false_of_ne_true ho] at hp
              simp at hp
            · exact ih.mpr ⟨c', hc', hp⟩
      · rw [if_neg hi]
        constructor
        · intro h
          rcases ih.mp h with ⟨c', hc', hp⟩
          exact ⟨c', List.mem_cons_of_mem c hc', hp⟩
        · rintro ⟨c', hc', hp⟩
          rcases List.mem_cons.mp hc' with rfl | hc'
          · rw [candidatePositive] at hp
            rw [eq_false_of_ne_true hm] at hp
            rw [eq_false_of_ne_true hi] at hp
            simp at hp
          · exact ih.mpr ⟨c', hc', hp⟩

theorem runCandidates_visionCalls_spec (oracle : String → Bool) (del : DeleteOutcome)
    (cs : List Candidate) :
    ∀ u ∈ (runCandidates oracle del cs).visionCalls,
      ∃ c ∈ cs, c.url = u ∧ metadata_indicates_hamster c.metadata = false ∧
        is_image_candidate (some c.url) c.content_type c.is_video_embed = true := by
  induction cs with
  | nil => intro u hu; cases hu
  | cons c rest ih =>
    intro u hu
    rw [runCandidates] at hu
    by_cases hm : metadata_indicates_hamster c.metadata
    · rw [if_pos hm] at hu
      cases hu
    · rw [if_neg hm] at hu
      by_cases hi : is_image_candidate (some c.url) c.content_type c.is_video_embed
      · rw [if_pos hi] at hu
        by_cases ho : oracle c.url
        · rw [if_pos ho] at hu
          rcases List.mem_singleton.mp hu with rfl
          exact ⟨c, List.mem_cons_self c rest, rfl, eq_false_of_ne_true hm, hi⟩
        · rw [if_neg ho] at hu
          rcases List.mem_cons.mp hu with rfl | hu
          · exact ⟨c, List.mem_cons_self c rest, rfl, eq_false_of_ne_true hm, hi⟩
          · rcases ih u hu with ⟨c', hc', h1, h2, h3⟩
            exact ⟨c', List.mem_cons_of_mem c hc', h1, h2, h3⟩
      · rw [if_neg hi] at hu
        rcases ih u hu with ⟨c', hc', h1, h2, h3⟩
        exact ⟨c', List.mem_cons_of_mem c hc', h1, h2, h3⟩

theorem runCandidates_stops_first (oracle : String → Bool) (del : DeleteOutcome)
    (c : Candidate) (rest rest' : List Candidate)
    (h : candidatePositive oracle c = true) :
    runCandidates oracle del (c :: rest) = runCandidates oracle del (c :: rest') := by
  rw [candidatePositive] at h
  by_cases hm : metadata_indicates_hamster c.metadata
  · rw [runCandidates, runCandidates, if_pos hm, if_pos hm]
  · rw [eq_false_of_ne_true hm, Bool.false_or, Bool.and_eq_true] at h
    rw [runCandidates, runCandidates, if_neg hm, if_neg hm, if_pos h.1, if_pos h.1,
      if_pos h.2, if_pos h.2]

theorem runCandidates_notify_eq_deleted (oracle : String → Bool) (del : DeleteOutcome)
    (cs : List Candidate) :
    (runCandidates oracle del cs).notifyAttempted = (runCandidates oracle del cs).deleted := by
  induction cs with
  | nil => rfl
  | cons c rest ih =>
    rw [runCandidates]
    by_cases hm : metadata_indicates_hamster c.metadata
    · rw [if_pos hm]; rfl
    · rw [if_neg hm]
      by_cases hi : is_image_candidate (some c.url) c.content_type c.is_video_embed
      · rw [if_pos hi]
        by_cases ho : oracle c.url
        · rw [if_pos ho]; rfl
        · rw [if_neg ho]; exact ih
      · rw [if_neg hi]; exact ih

theorem runCandidates_deleted_eq (oracle : String → Bool) (del : DeleteOutcome)
    (cs : List Candidate) :
    (runCandidates oracle del cs).deleted =
      (decide ((runCandidates oracle del cs).deleteAttempts = 1) &&
        delete_hamster_message del) := by
  induction cs with
  | nil => rfl
  | cons c rest ih =>
    rw [runCandidates]
    by_cases hm : metadata_indicates_hamster c.metadata
    · rw [if_pos hm]; simp [moderationAct]
    · rw [if_neg hm]
      by_cases hi : is_image_candidate (some c.url) c.content_type c.is_video_embed
      · rw [if_pos hi]
        by_cases ho : oracle c.url
        · rw [if_pos ho]; simp [moderationAct]
        · rw [if_neg ho]; exact ih
      · rw [if_neg hi]; exact ih

theorem is_image_candidate_requires_http (url : String) (ct : Option String) (ivb : Bool)
    (h1 : pyStartsWith (pyLower url) "http://" = false)
    (h2 : pyStartsWith (pyLower url) "https://" = false) :
    is_image_candidate (some url) ct ivb = false := by
  cases ivb with
  | true => rfl
  | false =>
    rw [is_image_candidate]
    show (if !(pyStartsWith (pyLower url) "http://" || pyStartsWith (pyLower url) "https://")
        then false else _) = false
    rw [h1, h2]
    rfl

theorem is_image_candidate_true_http (url : String) (ct : Option String) (ivb : Bool)
    (h : is_image_candidate (some url) ct ivb = true) :
    (pyStartsWith (pyLower url) "http://" || pyStartsWith (pyLower url) "https://") = true := by
  by_contra hne
  rcases Bool.or_eq_false_iff.mp (Bool.eq_false_iff.mpr hne) with ⟨h1, h2⟩
  rw [is_image_candidate_requires_http url ct ivb h1 h2] at h
  cases h

theorem notifyText_contains (a : Author) : pyContains (notifyText a) a.mention = true := by
  rw [pyContains, List.any_eq_true]
  refine ⟨a.mention.data ++ ", hamster detected and deleted! 🚨".data, ?_, ?_⟩
  · rw [List.mem_tails]
    have hdata : (notifyText a).data =
        "🚨 ".data ++ (a.mention.data ++ ", hamster detected and deleted! 🚨".data) := by
      show ("🚨 ".data ++ a.mention.data) ++ ", hamster detected and deleted! 🚨".data = _
      rw [List.append_assoc]
    rw [hdata]
    exact List.suffix_append _ _
  · exact List.isPrefixOf_iff_prefix.mpr (List.prefix_append _ _)

/-! ## The claims -/

/-- C1, corrected, counterexample: the vision classifier is not total over
failure modes — with an API key configured, a network-level error is not
caught and does not resolve to the classification `false`; and no
15-time-unit request timeout is configured at all. -/
theorem claim_C1_counterexample :
    analyze_image_for_hamster (some "key") VisionOutcome.networkError ≠ Except.ok false
    ∧ visionRequestTimeout ≠ some 15 :=
  ⟨(fun h => nomatch h), (fun h => nomatch h)⟩

/-- C1, amended: the classifier resolves to `false` without raising when
the API key is missing, when the HTTP status is non-success, and when the
response JSON lacks the expected keys/indices; but no request timeout is
configured, and a network-level error, a transport timeout, or a
JSON-decode failure propagates to the caller as an exception. -/
theorem claim_C1_amended (key : String) (status : Nat) (body : VisionBody)
    (outcome : VisionOutcome) :
    analyze_image_for_hamster none outcome = .ok false
    ∧ (status ≠ 200 →
        analyze_image_for_hamster (some key) (.response status body) = .ok false)
    ∧ analyze_image_for_hamster (some key) (.response 200 .missingShape) = .ok false
    ∧ analyze_image_for_hamster (some key) .networkError = .error .clientError
    ∧ analyze_image_for_hamster (some key) .timeoutFired = .error .timeoutError
    ∧ analyze_image_for_hamster (some key) (.response 200 .invalidJson) =
        .error .jsonDecodeError
    ∧ visionRequestTimeout = none := by
  refine ⟨rfl, ?_, rfl, rfl, rfl, rfl, rfl⟩
  intro h
  simp [analyze_image_for_hamster, h]

/-- C1 witness: a 404 response with an unreadable body resolves to `false`. -/
theorem claim_C1_witness :
    analyze_image_for_hamster (some "key") (.response 404 .invalidJson) = .ok false :=
  (claim_C1_amended "key" 404 VisionBody.invalidJson VisionOutcome.networkError).2.1
    (by decide)

/-- C2, corrected, counterexample: a not-found failure of the delete step
yields `deleted = false` (the `except discord.NotFound` arm falls through
to `return False`), so on a metadata-positive message the notify step is
not attempted. -/
theorem claim_C2_counterexample :
    delete_hamster_message DeleteOutcome.notFound = false
    ∧ (on_message (fun _ => false) DeleteOutcome.notFound sampleHamsterMessage).deleteAttempts
        = 1
    ∧ (on_message (fun _ => false) DeleteOutcome.notFound
        sampleHamsterMessage).notifyAttempted = false := by
  decide

/-- C2, amended: only an actually successful delete call yields
`deleted = true`; not-found, permission-denied and any other delivery
failure all yield `deleted = false`, and the notify step is reached iff
the delete step succeeded. -/
theorem claim_C2_amended :
    delete_hamster_message DeleteOutcome.success = true
    ∧ delete_hamster_message DeleteOutcome.notFound = false
    ∧ delete_hamster_message DeleteOutcome.forbidden = false
    ∧ delete_hamster_message DeleteOutcome.httpError = false
    ∧ (∀ (oracle : String → Bool) (del : DeleteOutcome) (cs : List Candidate),
        (runCandidates oracle del cs).notifyAttempted = (runCandidates oracle del cs).deleted
        ∧ (runCandidates oracle del cs).deleted =
            (decide ((runCandidates oracle del cs).deleteAttempts = 1) &&
              delete_hamster_message del)) :=
  ⟨rfl, rfl, rfl, rfl, fun oracle del cs =>
    ⟨runCandidates_notify_eq_deleted oracle del cs, runCandidates_deleted_eq oracle del cs⟩⟩

/-- C3, confirmed: per message the orchestrator makes at most one
moderation action; a moderation action happens iff the guard passes and
some candidate classifies positive; every vision call belongs to a
candidate whose metadata classification is negative and which is
image-eligible (so metadata is checked first, and a non-image candidate
with negative metadata never triggers a vision call); and once a
candidate classifies positive the run does not depend on the remaining
candidates. -/
theorem claim_C3_orchestrator (oracle : String → Bool) (del : DeleteOutcome)
    (msg : Message) :
    (on_message oracle del msg).deleteAttempts ≤ 1
    ∧ ((on_message oracle del msg).deleteAttempts = 1 ↔
        ¬(msg.is_self ∨ msg.author.bot) ∧
          ∃ c ∈ collect_media_candidates msg, candidatePositive oracle c = true)
    ∧ (∀ u ∈ (on_message oracle del msg).visionCalls,
        ∃ c ∈ collect_media_candidates msg, c.url = u ∧
          metadata_indicates_hamster c.metadata = false ∧
          is_image_candidate (some c.url) c.content_type c.is_video_embed = true)
    ∧ (∀ (c : Candidate) (rest rest' : List Candidate),
        candidatePositive oracle c = true →
        runCandidates oracle del (c :: rest) = runCandidates oracle del (c :: rest')) := by
  by_cases hg : msg.is_self ∨ msg.author.bot
  · refine ⟨?_, ?_, ?_, ?_⟩
    · rw [on_message, if_pos hg]; exact Nat.zero_le 1
    · rw [on_message, if_pos hg]
      constructor
      · intro h; exact absurd h (by decide)
      · rintro ⟨hng, -⟩; exact absurd hg hng
    · rw [on_message, if_pos hg]
      intro u hu
      exact absurd hu (List.not_mem_nil u)
    · intro c rest rest' h
      exact runCandidates_stops_first oracle del c rest rest' h
  · refine ⟨?_, ?_, ?_, ?_⟩
    · rw [on_message, if_neg hg]
      exact runCandidates_attempts_le_one oracle del _
    · rw [on_message, if_neg hg, runCandidates_attempts_iff]
      constructor
      · intro h; exact ⟨hg, h⟩
      · rintro ⟨-, h⟩; exact h
    · rw [on_message, if_neg hg]
      exact runCandidates_visionCalls_spec oracle del _
    · intro c rest rest' h
      exact runCandidates_stops_first oracle del c rest rest' h

/-- C3 witness: on a concrete metadata-negative image message the vision
call is attributed to the expected candidate, and a metadata-positive
candidate short-circuits the rest of the list. -/
theorem claim_C3_witness :
    (on_message (fun _ => false) DeleteOutcome.success catMessage).deleteAttempts ≤ 1
    ∧ (∃ c ∈ collect_media_candidates catMessage, c.url = "http://x/cat.png" ∧
        metadata_indicates_hamster c.metadata = false ∧
        is_image_candidate (some c.url) c.content_type c.is_video_embed = true)
    ∧ runCandidates (fun _ => false) DeleteOutcome.success (hamsterCandidate :: [])
        = runCandidates (fun _ => false) DeleteOutcome.success
            (hamsterCandidate :: [hamsterCandidate]) :=
  ⟨(claim_C3_orchestrator (fun _ => false) DeleteOutcome.success catMessage).1,
   (claim_C3_orchestrator (fun _ => false) DeleteOutcome.success catMessage).2.2.1
     "http://x/cat.png" (by decide),
   (claim_C3_orchestrator (fun _ => false) DeleteOutcome.success catMessage).2.2.2
     hamsterCandidate [] [hamsterCandidate] (by decide)⟩

/-- C4, confirmed: the candidate urls are exactly the first-occurrence
dedup of the message's media urls (attachments walked first, in order,
then embeds), each url occurs at most once, and the attachment candidates
kept are the first occurrences of their urls. -/
theorem claim_C4_dedup (msg : Message) :
    (collect_media_candidates msg).map Candidate.url = dedupFirst (messageMediaUrls msg)
    ∧ ((collect_media_candidates msg).map Candidate.url).Nodup
    ∧ (collectAttachments msg.content msg.attachments []).1 =
        (keepFirstAttachments [] msg.attachments).map (attachmentCandidate msg.content) :=
  ⟨collect_urls_eq msg, collect_urls_nodup msg,
    (collectAttachments_spec msg.content msg.attachments []).1⟩

/-- C5, confirmed: the metadata classifier is positive iff the lower-cased
space-joined metadata text contains a keyword as a substring, or the token
list of the normalised text contains the exact token "hampter"; with the
spec's concrete cases. -/
theorem claim_C5_metadata :
    (∀ parts : List Meta,
      metadata_indicates_hamster parts =
        (HAMSTER_KEYWORDS.any (fun kw => pyContains (searchableText parts) kw)
          || (metadataTokens parts).contains "hampter"))
    ∧ metadata_indicates_hamster [.str "HAMSTER.png"] = true
    ∧ metadata_indicates_hamster [.str "hamster.png"] = true
    ∧ metadata_indicates_hamster [.str "look at this hampter"] = true
    ∧ metadata_indicates_hamster [.str "hampterific"] = false := by
  refine ⟨?_, by decide, by decide, by decide, by decide⟩
  intro parts
  rw [metadata_indicates_hamster]
  by_cases h : HAMSTER_KEYWORDS.any (fun kw => pyContains (searchableText parts) kw) = true
  · rw [if_pos h, h, Bool.true_or]
  · rw [if_neg h, Bool.eq_false_iff.mpr h, Bool.false_or]

/-- C6, confirmed: on a successful response the classifier answers `true`
iff the first token of the stripped, upper-cased, non-letters-blanked
answer is exactly "YES"; with the spec's concrete cases and the no-token
case. -/
theorem claim_C6_vision_parse :
    parse_vision_answer "NO - just a mouse" = false
    ∧ parse_vision_answer "Yes, clearly" = true
    ∧ parse_vision_answer "" = false
    ∧ (∀ s : String,
        (parse_vision_answer s = true ↔ (visionTokens s).head? = some "YES"))
    ∧ (∀ (key : String) (s : String),
        analyze_image_for_hamster (some key) (.response 200 (.content s)) =
          .ok (parse_vision_answer s)) := by
  refine ⟨by decide, by decide, by decide, ?_, fun key s => rfl⟩
  intro s
  rw [parse_vision_answer]
  cases h : visionTokens s with
  | nil => simp
  | cons t ts => simp

/-- C7, corrected, counterexample: the video-extension set in the source
is not the set the claim names — `.m3u8` is in it, `.mpeg` is not. -/
theorem claim_C7_counterexample :
    ".m3u8" ∈ VIDEO_URL_EXTENSIONS ∧ ".m3u8" ∉ specVideoExtensionsClaim
    ∧ ".mpeg" ∈ specVideoExtensionsClaim ∧ ".mpeg" ∉ VIDEO_URL_EXTENSIONS := by
  decide

/-- C7, amended: url-based media-type inference strips the query string
and tests the suffix against the fixed image set
`{.jpg,.jpeg,.png,.webp,.gif,.bmp}` and the fixed video set
`{.mp4,.mov,.webm,.mkv,.avi,.m3u8}`; a url ending in a video extension is
not an image candidate, and a url matching neither set is not an image
candidate either. -/
theorem claim_C7_amended :
    IMAGE_URL_EXTENSIONS = [".jpg", ".jpeg", ".png", ".webp", ".gif", ".bmp"]
    ∧ VIDEO_URL_EXTENSIONS = [".mp4", ".mov", ".webm", ".mkv", ".avi", ".m3u8"]
    ∧ (∀ url : String,
        VIDEO_URL_EXTENSIONS.any (fun e => pyEndsWith (stripQuery (pyLower url)) e) = true →
        is_image_candidate (some url) none false = false)
    ∧ (∀ url : String,
        VIDEO_URL_EXTENSIONS.any (fun e => pyEndsWith (stripQuery (pyLower url)) e) = false →
        IMAGE_URL_EXTENSIONS.any (fun e => pyEndsWith (stripQuery (pyLower url)) e) = false →
        is_image_candidate (some url) none false = false) := by
  have hc1 : pyStartsWith (pyLower "") "image/" = false := by decide
  have hc2 : pyStartsWith (pyLower "") "video/" = false := by decide
  refine ⟨rfl, rfl, ?_, ?_⟩
  · intro url h
    by_cases hs : (pyStartsWith (pyLower url) "http://"
        || pyStartsWith (pyLower url) "https://") = true
    · simp [is_image_candidate, pyOrEmpty, hs, hc1, hc2, h]
    · simp [is_image_candidate, pyOrEmpty, Bool.eq_false_iff.mpr hs]
  · intro url h1 h2
    by_cases hs : (pyStartsWith (pyLower url) "http://"
        || pyStartsWith (pyLower url) "https://") = true
    · simp [is_image_candidate, pyOrEmpty, hs, hc1, hc2, h1, h2]
    · simp [is_image_candidate, pyOrEmpty, Bool.eq_false_iff.mpr hs]

/-- C7 witness: a url with the `.m3u8` video extension, and a url matching
neither extension set, are both rejected. -/
theorem claim_C7_witness :
    is_image_candidate (some "http://x/clip.m3u8") none false = false
    ∧ is_image_candidate (some "http://x/file.mpeg") none false = false :=
  ⟨claim_C7_amended.2.2.1 "http://x/clip.m3u8" (by decide),
   claim_C7_amended.2.2.2 "http://x/file.mpeg" (by decide) (by decide)⟩

/-- C8, corrected, counterexample: a `gifv` embed whose chosen url comes
from the thumbnail field gets `is_video_embed = false` — the embed kind
"gifv" receives no special treatment, contradicting "Video whenever ...
the embed kind is gifv". -/
theorem claim_C8_counterexample :
    gifvThumbEmbed.type = "gifv"
    ∧ embedChoice gifvThumbEmbed = (some "http://x/a.gif", false)
    ∧ (collect_media_candidates gifvMessage).map (fun c => (c.url, c.is_video_embed)) =
        [("http://x/a.gif", false)] :=
  ⟨rfl, rfl, rfl⟩

/-- C8, amended: the chosen candidate is flagged Video exactly when the
url came from the video field, or came from the embed's own url field
while the embed kind is "video"; a url chosen from the image or thumbnail
field always gets the flag `false` (its media type is then inferred from
the url at classification time), and kind "gifv" has no effect. -/
theorem claim_C8_amended (e : Embed) :
    ((embedChoice e).2 = true ↔
      (e.image = none ∧ e.thumbnail = none ∧ ∃ u, e.video = some u)
      ∨ (e.image = none ∧ e.thumbnail = none ∧ e.video = none ∧ e.type = "video"
          ∧ ∃ u, e.url = some u ∧ u ≠ ""))
    ∧ (∀ u, e.image = some u → embedChoice e = (u, false))
    ∧ (∀ u, e.image = none → e.thumbnail = some u → embedChoice e = (u, false)) := by
  rcases e with ⟨ty, img, th, vid, url, ti, de, pn, an, ft, raw⟩
  refine ⟨?_, ?_, ?_⟩
  · cases img with
    | some u => simp [embedChoice]
    | none =>
      cases th with
      | some u => simp [embedChoice]
      | none =>
        cases vid with
        | some u => simp [embedChoice]
        | none =>
          cases url with
          | none => simp [embedChoice]
          | some u =>
            by_cases hu : u = ""
            · simp [embedChoice, hu]
            · simp only [embedChoice]
              rw [if_neg hu]
              simp [hu, and_comm]
  · intro u himg
    subst himg
    simp [embedChoice]
  · intro u himg hth
    subst himg
    subst hth
    simp [embedChoice]

/-- C8 witness: a `rich` embed whose url comes from the image field is
chosen with the Video flag off. -/
theorem claim_C8_witness : embedChoice richImageEmbed = (some "http://x/b.png", false) :=
  (claim_C8_amended richImageEmbed).2.1 (some "http://x/b.png") rfl

/-- C9, corrected, counterexample: the notification wording cannot depend
on the author's name — no special-cased per-name override exists, since
the text is one fixed template around the author mention. -/
theorem claim_C9_counterexample : ¬ notifyDependsOnAuthorName := by
  rintro ⟨a, b, hm, hne⟩
  apply hne
  rw [notifyText, notifyText, hm]

/-- C9, amended: the notification names the offending author by mention,
with one fixed wording used for every author and no per-name special
case. -/
theorem claim_C9_amended (a : Author) :
    notifyText a = "🚨 " ++ a.mention ++ ", hamster detected and deleted! 🚨"
    ∧ pyContains (notifyText a) a.mention = true
    ∧ (∀ b : Author, a.mention = b.mention → notifyText a = notifyText b) := by
  refine ⟨rfl, notifyText_contains a, ?_⟩
  intro b hm
  rw [notifyText, notifyText, hm]

/-- C9 witness: two authors differing only in name get the same text. -/
theorem claim_C9_witness :
    notifyText { name := "Alice", mention := "<@1>", bot := false } =
      notifyText { name := "Bob", mention := "<@1>", bot := false } :=
  (claim_C9_amended { name := "Alice", mention := "<@1>", bot := false }).2.2
    { name := "Bob", mention := "<@1>", bot := false } rfl

/-- C10, confirmed: a url that (after lower-casing) starts with neither
"http://" nor "https://" is never an image candidate, whatever the
declared content type and video flag; consequently every vision call in
the orchestrator loop is on a url that starts with "http://" or
"https://". -/
theorem claim_C10_nonhttp (url : String) (ct : Option String) (ivb : Bool) :
    (pyStartsWith (pyLower url) "http://" = false →
      pyStartsWith (pyLower url) "https://" = false →
      is_image_candidate (some url) ct ivb = false)
    ∧ (∀ (oracle : String → Bool) (del : DeleteOutcome) (cs : List Candidate) (u : String),
        u ∈ (runCandidates oracle del cs).visionCalls →
        (pyStartsWith (pyLower u) "http://" || pyStartsWith (pyLower u) "https://") = true) := by
  constructor
  · exact is_image_candidate_requires_http url ct ivb
  · intro oracle del cs u hu
    rcases runCandidates_visionCalls_spec oracle del cs u hu with ⟨c, -, rfl, -, hi⟩
    exact is_image_candidate_true_http c.url c.content_type c.is_video_embed hi

/-- C10 witness: a non-HTTP url with an image content type is rejected. -/
theorem claim_C10_witness :
    is_image_candidate (some "ftp://x/a.png") (some "image/png") false = false :=
  (claim_C10_nonhttp "ftp://x/a.png" (some "image/png") false).1 (by decide) (by decide)
